import Mathlib

/-!
Verification of the agent delegation and workflow orchestration core of the
`vscodiumvoicefirstproject` repository (Python).  The development shallowly
embeds the relevant source functions:

* `src/adk_ide/agents/workflow.py` — `LoopAgent.run`, `SequentialAgent.run`,
  `ParallelAgent.run` (the manual fallback paths; the `ADK_ENABLED` branches
  depend on an external `google.adk` package and are inactive in the default
  configuration that the tests exercise).
* `src/adk_ide/agents/base.py` — `AgentCommunication.delegate_to_agent`.
* `src/adk_ide/agents/cea.py` — `CodeExecutionAgent.run`.
* `src/adk_ide/agents/da.py` — `DevelopingAgent.run`.
* `src/adk_ide/agents/hia.py` — `HumanInteractionAgent.run` (fallback mode).

Python values are embedded as `PyVal`; Python dicts are association lists
with first-match lookup and in-place key replacement, which reproduces
`dict.get` / `{**d, k: v}` observational behaviour.  Fallible Python code
(code that can raise) is embedded with `Except String`.
-/

/-- Embedding of the Python values appearing in requests and results. -/
inductive PyVal where
  | none : PyVal
  | bool (b : Bool) : PyVal
  | int (n : Int) : PyVal
  | str (s : String) : PyVal
  | list (xs : List PyVal) : PyVal
  | dict (xs : List (String × PyVal)) : PyVal

/-- First-match lookup in a dict entry list (Python dict lookup). -/
def getEntries : List (String × PyVal) → String → Option PyVal
  | [], _ => Option.none
  | (k, v) :: rest, key => if k = key then some v else getEntries rest key

/-- Replace-or-append for a dict entry list: the semantics of writing key
`key` into a Python dict (insertion order preserved, value replaced). -/
def setEntries : List (String × PyVal) → String → PyVal → List (String × PyVal)
  | [], key, v => [(key, v)]
  | (k, w) :: rest, key, v =>
    if k = key then (key, v) :: rest else (k, w) :: setEntries rest key v

/-- Python `d.get(k)` on a dict value; `none` on missing keys or non-dicts. -/
def pyGet (v : PyVal) (key : String) : Option PyVal :=
  match v with
  | .dict xs => getEntries xs key
  | _ => Option.none

/-- Python `d.get(k)` with Python `None` as the default. -/
def pyGetD (v : PyVal) (key : String) : PyVal :=
  (pyGet v key).getD .none

/-- Python `d.get(k, default)`. -/
def pyGetDef (v : PyVal) (key : String) (dflt : PyVal) : PyVal :=
  (pyGet v key).getD dflt

/-- Python `{**d, key: v}` (shallow-copy-and-extend of a dict value). -/
def pySet (v : PyVal) (key : String) (w : PyVal) : PyVal :=
  match v with
  | .dict xs => .dict (setEntries xs key w)
  | other => other

/-- Python truthiness. -/
def pyTruthy : PyVal → Bool
  | .none => false
  | .bool b => b
  | .int n => decide (n ≠ 0)
  | .str s => decide (s ≠ "")
  | .list xs => !xs.isEmpty
  | .dict xs => !xs.isEmpty

/-- Python `a or b`: the first operand when truthy, otherwise the second. -/
def pyOr (a b : PyVal) : PyVal :=
  if pyTruthy a then a else b

/-- Tests whether an optional value is the string `s` (Python `x == "s"`
after a successful lookup). -/
def isStrEq (o : Option PyVal) (s : String) : Bool :=
  match o with
  | some (.str t) => t == s
  | _ => false

/-- Tests whether an optional value is Python `True` (`x is True`). -/
def isPyTrue (o : Option PyVal) : Bool :=
  match o with
  | some (.bool b) => b
  | _ => false

/-! ## LoopAgent (workflow.py, `LoopAgent.run`, fallback path, lines 106-159)

Sub-agents are Python objects whose `run` may depend on internal state.
Within one `LoopAgent.run` invocation every completed iteration calls every
sub-agent exactly once, so a sub-agent reaching its `n`-th call inside the
loop has been called `n - 1` times before.  A sub-agent is therefore
embedded as a function of the number of its previous calls in this loop
invocation and of the request it receives. -/

structure SubAgent where
  name : String
  behavior : Nat → PyVal → PyVal

/-- One element of the in-memory `results` list:
`{"iteration": .., "agent": .., "result": ..}`. -/
structure LoopEntry where
  iteration : Nat
  agent : String
  result : PyVal

/-- The dict returned by `LoopAgent.run`, with its five keys as fields. -/
structure LoopOutcome where
  status : String
  agent : String
  iterations : Nat
  results : List LoopEntry
  termination_reason : String

/-- Termination check 1 in the loop body:
`result.get("event_actions", {})` is a dict whose `"escalate"` is `True`. -/
def eventActionsEscalate (result : PyVal) : Bool :=
  match pyGetDef result "event_actions" (.dict []) with
  | .dict ea => isPyTrue (getEntries ea "escalate")
  | _ => false

/-- Termination check 2 in the loop body (legacy flags):
`result.get("escalate") is True or result.get("terminate") is True`. -/
def legacyEscalate (result : PyVal) : Bool :=
  isPyTrue (pyGet result "escalate") || isPyTrue (pyGet result "terminate")

/-- The inner `for agent in self.sub_agents` body of `LoopAgent.run`.
`prev` is the number of iterations completed before the current one (the
current iteration number is `prev + 1`).  Returns `.inr results` when a
termination signal fired (the early `return` with
`termination_reason = "escalate_signal"`), `.inl (results, request)`
when the iteration ran to completion.  The third check in the source
(`self._exit_requested`, set only by the ADK-branch `exit_loop` tool) can
never fire on the fallback path, where the flag is reset to `False` on
entry to `run` and nothing sets it. -/
def loopAgentIter : List SubAgent → Nat → PyVal → List LoopEntry →
    (List LoopEntry × PyVal) ⊕ (List LoopEntry)
  | [], _, req, acc => .inl (acc, req)
  | a :: rest, prev, req, acc =>
    let result := a.behavior prev req
    let acc2 := acc ++ [⟨prev + 1, a.name, result⟩]
    if eventActionsEscalate result then .inr acc2
    else if legacyEscalate result then .inr acc2
    else loopAgentIter rest prev (pySet req "previous_result" result) acc2

/-- The `while iteration_count < self.max_iterations` loop of
`LoopAgent.run`, with `fuel = max_iterations - iteration_count` (the loop
increments `iteration_count` once per pass, so the remaining pass count is
exactly this difference; `loopAgentRun` starts it at `max_iterations`).
The `not self._exit_requested` conjunct of the loop condition and the
`"exit_loop_tool"` reason are unreachable on the fallback path (see
`loopAgentIter`), so the final reason is `"max_iterations_reached"`. -/
def loopAgentGo (agents : List SubAgent) : Nat → Nat → PyVal → List LoopEntry → LoopOutcome
  | 0, iterCount, _, acc =>
    ⟨"completed", "loop_agent", iterCount, acc, "max_iterations_reached"⟩
  | fuel + 1, iterCount, req, acc =>
    match loopAgentIter agents iterCount req acc with
    | .inr acc2 =>
      ⟨"completed", "loop_agent", iterCount + 1, acc2, "escalate_signal"⟩
    | .inl (acc2, req2) => loopAgentGo agents fuel (iterCount + 1) req2 acc2

/-- Embeds `LoopAgent.run` (fallback path): `iteration_count = 0`,
`current_request = request`, `results = []`. -/
def loopAgentRun (agents : List SubAgent) (maxIterations : Nat) (request : PyVal) :
    LoopOutcome :=
  loopAgentGo agents maxIterations 0 request []

/-- Number of entries of the results trace attributed to agent name `x`.
Each entry of the trace corresponds to exactly one `agent.run` call in the
source, so this is the number of times the agent named `x` was called. -/
def countAgent (rs : List LoopEntry) (x : String) : Nat :=
  (rs.map (·.agent)).count x

/-! ## SequentialAgent (workflow.py, `SequentialAgent.run`, fallback path,
lines 218-238).  Each sub-agent is called at most once per run, so its
behaviour is a function of the request alone. -/

structure SeqAgent where
  name : String
  run : PyVal → PyVal

/-- One element of the `results` list: `{"agent": .., "result": ..}`. -/
structure SeqEntry where
  agent : String
  result : PyVal

/-- The dict returned by `SequentialAgent.run`; `failed_at` is present
(`some`) exactly on the error return. -/
structure SeqOutcome where
  status : String
  agent : String
  failed_at : Option String
  results : List SeqEntry

/-- The `for agent in self.sub_agents` loop of `SequentialAgent.run`. -/
def sequentialAgentGo : List SeqAgent → PyVal → List SeqEntry → SeqOutcome
  | [], _, acc => ⟨"success", "sequential_agent", Option.none, acc⟩
  | a :: rest, req, acc =>
    let result := a.run req
    let acc2 := acc ++ [⟨a.name, result⟩]
    if isStrEq (pyGet result "status") "error" then
      ⟨"error", "sequential_agent", some a.name, acc2⟩
    else
      sequentialAgentGo rest
        (pySet (pySet req "previous_result" result) "state"
          (pyGetDef result "state" (.dict []))) acc2

/-- Embeds `SequentialAgent.run` (fallback path). -/
def sequentialAgentRun (agents : List SeqAgent) (request : PyVal) : SeqOutcome :=
  sequentialAgentGo agents request []

/-! ## ParallelAgent (workflow.py, `ParallelAgent.run`, fallback path,
lines 297-308).  A sub-agent whose `run` raises is embedded with
`Except String`; `asyncio.gather(*tasks, return_exceptions=True)` yields
the outcomes in declaration order, exceptions delivered as values. -/

structure ParAgent where
  name : String
  run : PyVal → Except String PyVal

/-- The dict returned by `ParallelAgent.run`. -/
structure ParOutcome where
  status : String
  agent : String
  results : List PyVal

/-- The post-processing of one gathered outcome in the
`for agent, result in zip(self.sub_agents, results)` loop. -/
def parallelProcess (a : ParAgent) (req : PyVal) : PyVal :=
  match a.run req with
  | .error e => .dict [("agent", .str a.name), ("status", .str "error"), ("error", .str e)]
  | .ok v => .dict [("agent", .str a.name), ("result", v)]

/-- Embeds `ParallelAgent.run` (fallback path): gather all outcomes in declaration
order, then zip them back with the agents. -/
def parallelAgentRun (agents : List ParAgent) (request : PyVal) : ParOutcome :=
  let results := agents.map (fun a => a.run request)
  let processed := (agents.zip results).map (fun p =>
    match p.2 with
    | .error e => .dict [("agent", .str p.1.name), ("status", .str "error"), ("error", .str e)]
    | .ok v => .dict [("agent", .str p.1.name), ("result", v)])
  ⟨"success", "parallel_agent", processed⟩

/-! ## Delegation protocol (base.py, `AgentCommunication.delegate_to_agent`,
lines 215-293).

The session (an `InvocationContext.session`) carries a mutable `state`
mapping; every write of the delegation log goes through
`state.setdefault("delegations", []).append(..)`, so the log is modelled
as its own field (created empty on first use).  The claims range over
calls made "within one session", i.e. `context.session` is present; when
it is absent the source skips all session writes.

Non-deterministic inputs of one call — the downstream
`agent_tool.execute` outcome (a value, or a raised exception caught by the
`except` clause), the generated `delegation_id` and the wall-clock
timestamps — are passed in explicitly. -/

structure Session where
  state : List (String × PyVal)
  delegations : List PyVal

structure DelegCall where
  parentName : String
  targetName : String
  task : PyVal
  outcome : Except String PyVal
  delegationId : String
  timestamp : String

/-- The record appended to the `delegations` log by one delegate call:
status `"completed"` when the downstream execution returned, `"failed"`
(plus the error text) when it raised. -/
def delegRecord (c : DelegCall) : PyVal :=
  match c.outcome with
  | .ok _ => .dict [("from", .str c.parentName), ("to", .str c.targetName),
      ("task", pyGetDef c.task "description" (.str "")),
      ("status", .str "completed"), ("timestamp", .str c.timestamp)]
  | .error e => .dict [("from", .str c.parentName), ("to", .str c.targetName),
      ("task", pyGetDef c.task "description" (.str "")),
      ("status", .str "failed"), ("error", .str e), ("timestamp", .str c.timestamp)]

/-- Embeds `AgentCommunication.delegate_to_agent`: runs the downstream agent via an
`AgentTool` wrapper, stores a `"<target>_result"` key and appends one
delegation record on success; on a downstream exception the `except` clause
appends one `"failed"` record and returns a `status: "error"` result.  The
embedding is a total function: the source never re-raises. -/
def delegateToAgent (c : DelegCall) (s : Session) : PyVal × Session :=
  match c.outcome with
  | .ok result =>
    let stored : PyVal := .dict [("result", result),
      ("delegation_id", .str c.delegationId), ("completed_at", .str c.timestamp)]
    let s1 : Session := { s with state := setEntries s.state (c.targetName ++ "_result") stored }
    let s2 : Session := { s1 with delegations := s1.delegations ++ [delegRecord c] }
    (.dict [("status", .str "success"), ("result", result),
      ("delegation_id", .str c.delegationId), ("target_agent", .str c.targetName)], s2)
  | .error e =>
    let s2 : Session := { s with delegations := s.delegations ++ [delegRecord c] }
    (.dict [("status", .str "error"),
      ("message", .str ("Delegation to " ++ c.targetName ++ " failed: " ++ e)),
      ("target_agent", .str c.targetName)], s2)

/-- A sequence of delegate calls within one session, threading the session
state. -/
def runDelegations (s : Session) : List DelegCall → Session
  | [] => s
  | c :: cs => runDelegations (delegateToAgent c s).2 cs

/-! ## CodeExecutionAgent (cea.py, `CodeExecutionAgent.run`).

The denylist is the constructor default
`[r"\bimport\s+os\b", r"\bsubprocess\b", r"\bsocket\b", r"\bshutil\.rmtree\b"]`,
compiled with `re.IGNORECASE`; the four patterns are implemented directly
as decidable word-boundary searches. -/

/-- Regex word character (`\w`): alphanumeric or underscore. -/
def wordChar (c : Char) : Bool := c.isAlphanum || c == '_'

/-- Case-insensitive literal match of `pat` (given lowercase) at the head of
`cs`; returns the remaining characters on success. -/
def matchCI : List Char → List Char → Option (List Char)
  | [], cs => some cs
  | _ :: _, [] => Option.none
  | p :: ps, c :: cs => if c.toLower == p then matchCI ps cs else Option.none

/-- Drop the maximal leading whitespace run. -/
def skipWs : List Char → List Char
  | [] => []
  | c :: cs => if c.isWhitespace then skipWs cs else c :: cs

/-- A word boundary (`\b`) sits between the match and `rest`. -/
def boundaryAfter : List Char → Bool
  | [] => true
  | c :: _ => !wordChar c

/-- Match attempt for `import\s+os\b` at the head of `cs` (the pattern
tail after the leading `\b`).  The `\s+` is matched greedily; since `os`
starts with a non-whitespace character, greedy consumption is equivalent
to the regex semantics. -/
def tryImportOs (cs : List Char) : Bool :=
  match matchCI "import".toList cs with
  | Option.none => false
  | some rest =>
    match rest with
    | [] => false
    | c :: rest2 =>
      c.isWhitespace &&
        (match matchCI "os".toList (skipWs rest2) with
         | Option.none => false
         | some rest3 => boundaryAfter rest3)

/-- Match attempt for a literal word followed by `\b`. -/
def tryWordPat (w : String) (cs : List Char) : Bool :=
  match matchCI w.toList cs with
  | Option.none => false
  | some rest => boundaryAfter rest

/-- The `re.search` driver: try the pattern at every position whose preceding
character (if any) is a non-word character — all four patterns start with a
word character, so the leading `\b` holds exactly there. -/
def searchGo (tryAt : List Char → Bool) : Bool → List Char → Bool
  | bnd, [] => bnd && tryAt []
  | bnd, c :: rest => (bnd && tryAt (c :: rest)) || searchGo tryAt (!wordChar c) rest

/-- Does `s` match one of the four denylist patterns? -/
def denylistMatches (s : String) : Bool :=
  searchGo tryImportOs true s.toList ||
  searchGo (tryWordPat "subprocess") true s.toList ||
  searchGo (tryWordPat "socket") true s.toList ||
  searchGo (tryWordPat "shutil.rmtree") true s.toList

mutual

/-- Python `repr` of an embedded value (used inside containers by `str`). -/
def pyRepr : PyVal → String
  | .none => "None"
  | .bool b => if b then "True" else "False"
  | .int n => toString n
  | .str s => "\x27" ++ s ++ "\x27"
  | .list xs => "[" ++ pyReprItems xs ++ "]"
  | .dict xs => "\x7b" ++ pyReprEntries xs ++ "\x7d"

/-- Comma-separated `repr`s of list items. -/
def pyReprItems : List PyVal → String
  | [] => ""
  | [x] => pyRepr x
  | x :: y :: rest => pyRepr x ++ ", " ++ pyReprItems (y :: rest)

/-- Comma-separated `repr`s of dict entries. -/
def pyReprEntries : List (String × PyVal) → String
  | [] => ""
  | [(k, v)] => "\x27" ++ k ++ "\x27: " ++ pyRepr v
  | (k, v) :: e :: rest => "\x27" ++ k ++ "\x27: " ++ pyRepr v ++ ", " ++ pyReprEntries (e :: rest)

end

/-- Python `str()` of an embedded value: the content itself for strings,
`repr`-style printing otherwise. -/
def pyStr : PyVal → String
  | .str s => s
  | v => pyRepr v

/-- An error result of the Code Execution Agent. -/
def ceaError (msg : String) : PyVal :=
  .dict [("status", .str "error"), ("error", .str msg),
    ("agent", .str "code_execution_agent")]

/-- Return value of the instrumented `CodeExecutionAgent.run`: the result
dict plus two observation flags recording whether control ever reached the
executor-initialisation block and whether the executor `execute` capability
was invoked. -/
structure CeaOutcome where
  result : PyVal
  initAttempted : Bool
  sandboxInvoked : Bool

/-- Embeds `CodeExecutionAgent.run`.  `maxCodeLen` is `self.max_code_len`
(environment-configurable, default 100000).  The sandbox collaborator is
passed in as the pair of an initialisation outcome (`.error` carries the
collected `init_errors` diagnostics when neither ADK executor can be
constructed) and an `execute` capability (`.error` covers both a raised
execution exception and the enforced timeout).  Executor caching across
calls (`self._executor`) does not affect a single call and is not
modelled. -/
def codeExecutionAgentRun (maxCodeLen : Nat)
    (sandboxInit : Except (List String) Unit)
    (execute : PyVal → Except String PyVal) (request : PyVal) : CeaOutcome :=
  let code := pyGetD request "code"
  if !pyTruthy code then
    ⟨ceaError "missing \x27code\x27", false, false⟩
  else if (pyStr code).length > maxCodeLen then
    ⟨ceaError "code too large", false, false⟩
  else if denylistMatches (pyStr code) then
    ⟨ceaError "forbidden code pattern detected", false, false⟩
  else
    match sandboxInit with
    | .error errs =>
      ⟨.dict [("status", .str "not_implemented"), ("agent", .str "code_execution_agent"),
        ("reason", .str "No supported ADK code executor available"),
        ("errors", .list (errs.map .str))], true, false⟩
    | .ok _ =>
      match execute (.dict [("code", code)]) with
      | .ok r => ⟨.dict [("status", .str "success"), ("result", r)], true, true⟩
      | .error e => ⟨ceaError e, true, true⟩

/-! ## DevelopingAgent (da.py, `DevelopingAgent.run`) and
HumanInteractionAgent (hia.py, `HumanInteractionAgent.run`), fallback mode
(`ADK_ENABLED` unset, `self._llm_agent is None`).

Both `run` methods contain branches of the form
`return await AgentCommunication.delegate_to_agent(self, <target>, request)`
(da.py line 325, hia.py lines 283 and 1164).  `delegate_to_agent`
(base.py line 216) is a static method with four required positional
parameters `(parent_agent, target_agent, task, context)`; these call sites
pass three arguments, so in Python the call itself raises `TypeError`
before `delegate_to_agent` runs, and neither `run` has a handler around it.
The embeddings therefore return `Except String PyVal`, with these branches
producing `.error delegateArityError`. -/

/-- The `TypeError` raised by the three-argument calls to the four-parameter
`AgentCommunication.delegate_to_agent`. -/
def delegateArityError : String :=
  "TypeError: delegate_to_agent() missing 1 required positional argument: \x27context\x27"

/-- Embeds `DevelopingAgent.run` (da.py lines 323-337).  The
`action == "save_web_assets"` branch calls the `_save_web_assets` helper,
passed in here as `saveWebAssets` (its artifact-store interaction is outside
the claims about this function); with no ADK LlmAgent the remaining
requests get the scaffold `status: "received"` reply. -/
def developingAgentRun (saveWebAssets : PyVal → PyVal) (request : PyVal) :
    Except String PyVal :=
  if isStrEq (pyGet request "action") "execute_code" then
    .error delegateArityError
  else if isStrEq (pyGet request "action") "save_web_assets" then
    .ok (saveWebAssets request)
  else
    .ok (.dict [("status", .str "received"), ("agent", .str "developing_agent"),
      ("request", request)])

/-- The keyword list of the interactive web-preview branch of
`HumanInteractionAgent.run`. -/
def webPreviewKeywords : List String :=
  ["view html", "preview html", "render html", "view css", "render css",
   "preview css", "view javascript", "render javascript", "preview javascript",
   "web preview", "view web", "snake game", "html preview", "run html",
   "execute html"]

/-- The templated instructions returned by the web-preview branch. -/
def webPreviewInstructions : String :=
  "Yes — the ADK IDE can render HTML, CSS, and JavaScript directly inside the built-in Web Preview pane. " ++
  "Open the Web Preview widget (View → ADK IDE → Web Preview or press Ctrl+Shift+W), select or paste your session ID, " ++
  "and use the pane to save or load HTML/CSS/JS artifacts. The preview runs inside a sandboxed iframe so you can interact " ++
  "with experiences like a snake game without leaving the IDE."

/-- The templated scaffold reply of the final fallback branch. -/
def hiaFallbackResponse : String :=
  "I received your message. ADK features are not enabled. Please set ADK_ENABLED=true to use full functionality."

/-- Does `pat` occur at the head of the list? -/
def listStartsWith [BEq α] : List α → List α → Bool
  | [], _ => true
  | _ :: _, [] => false
  | p :: ps, c :: cs => p == c && listStartsWith ps cs

/-- Substring containment over character lists. -/
def listContainsSub [BEq α] (pat : List α) : List α → Bool
  | [] => listStartsWith pat []
  | c :: cs => listStartsWith pat (c :: cs) || listContainsSub pat (cs)

/-- Python `pat in s` on strings. -/
def strContains (s pat : String) : Bool :=
  listContainsSub pat.toList s.toList

/-- Embeds `HumanInteractionAgent.run` (hia.py lines 281-1173) in fallback mode.
Branches, in source order: the `execute_code` delegation (the
three-argument call, see `delegateArityError`); the interactive web-preview
branch on `request.get("message") or request.get("text") or ""`; the
ADK-Runner branch (skipped: `self._llm_agent is None`); the delegation to
the developing agent for `task_type` in `["code_generation",
"development"]` (again the three-argument call); and the scaffold reply.
`devAgentPresent` is `self.developing_agent is not None`. -/
def humanInteractionAgentRun (devAgentPresent : Bool) (request : PyVal) :
    Except String PyVal :=
  if isStrEq (pyGet request "action") "execute_code" then
    .error delegateArityError
  else
    let messageText := pyOr (pyGetD request "message") (pyOr (pyGetD request "text") (.str ""))
    let webPreviewHit :=
      match messageText with
      | .str s => webPreviewKeywords.any (fun kw => strContains s.toLower kw)
      | _ => false
    if webPreviewHit then
      .ok (.dict [("status", .str "success"), ("agent", .str "human_interaction_agent"),
        ("response", .str webPreviewInstructions),
        ("web_preview_message", .str webPreviewInstructions)])
    else if devAgentPresent &&
        (isStrEq (pyGet request "task_type") "code_generation" ||
         isStrEq (pyGet request "task_type") "development") then
      .error delegateArityError
    else
      .ok (.dict [("status", .str "received"), ("agent", .str "human_interaction_agent"),
        ("request", request), ("response", .str hiaFallbackResponse)])

/-! ## Heap-instrumented workflow embeddings (for the request-immutability
claim).

The pure embeddings above ignore Python object identity.  To express that
`SequentialAgent.run` and `LoopAgent.run` never mutate the request dict of the caller
dict, the same two source functions are embedded once more over an explicit
heap of dict objects: a request is an address, and the source expression
`{**current_request, ...}` becomes an allocation of a fresh cell, never a
store to an existing one — exactly as in the source, where it builds a new
(a dict).  Sub-agents receive the heap and the request address; the claimed
hypothesis that sub-agents do not mutate the request is the `HeapExtends`
condition on their outcomes. -/

/-- A heap of Python dict objects; an address is an index. -/
abbrev Heap := List (List (String × PyVal))

/-- Dereference an address (unused default for dangling addresses). -/
def heapGet (h : Heap) (a : Nat) : List (String × PyVal) :=
  h.getD a []

/-- Allocate a fresh dict object, returning the heap and its address. -/
def heapAlloc (h : Heap) (d : List (String × PyVal)) : Heap × Nat :=
  (h ++ [d], h.length)

/-- Heap `h2` extends `h1`: every object of `h1` is unchanged in `h2` (new
objects may have been allocated). -/
def HeapExtends (h1 h2 : Heap) : Prop :=
  h1.length ≤ h2.length ∧ ∀ i, i < h1.length → heapGet h2 i = heapGet h1 i

/-- A sequential sub-agent over the heap. -/
structure SeqAgentH where
  name : String
  runH : Heap → Nat → PyVal × Heap

/-- A loop sub-agent over the heap (first argument: previous call count, as
in `SubAgent`). -/
structure LoopAgentH where
  name : String
  runH : Nat → Heap → Nat → PyVal × Heap

/-- Heap-instrumented `SequentialAgent.run` loop: mirrors
`sequentialAgentGo` with `current_request` as an address;
`{**current_request, "previous_result": .., "state": ..}` allocates. -/
def sequentialAgentGoH : List SeqAgentH → Heap → Nat → List SeqEntry → SeqOutcome × Heap
  | [], h, _, acc => (⟨"success", "sequential_agent", Option.none, acc⟩, h)
  | a :: rest, h, addr, acc =>
    let rh := a.runH h addr
    let acc2 := acc ++ [⟨a.name, rh.1⟩]
    if isStrEq (pyGet rh.1 "status") "error" then
      (⟨"error", "sequential_agent", some a.name, acc2⟩, rh.2)
    else
      let newEntries := setEntries (setEntries (heapGet rh.2 addr) "previous_result" rh.1)
        "state" (pyGetDef rh.1 "state" (.dict []))
      let ha := heapAlloc rh.2 newEntries
      sequentialAgentGoH rest ha.1 ha.2 acc2

/-- Heap-instrumented `SequentialAgent.run`. -/
def sequentialAgentRunH (agents : List SeqAgentH) (h : Heap) (reqAddr : Nat) :
    SeqOutcome × Heap :=
  sequentialAgentGoH agents h reqAddr []

/-- Heap-instrumented `LoopAgent.run` inner iteration: mirrors
`loopAgentIter`; `{**current_request, "previous_result": result}`
allocates. -/
def loopAgentIterH : List LoopAgentH → Nat → Heap → Nat → List LoopEntry →
    (List LoopEntry × Heap × Nat) ⊕ (List LoopEntry × Heap)
  | [], _, h, addr, acc => .inl (acc, h, addr)
  | a :: rest, prev, h, addr, acc =>
    let rh := a.runH prev h addr
    let acc2 := acc ++ [⟨prev + 1, a.name, rh.1⟩]
    if eventActionsEscalate rh.1 then .inr (acc2, rh.2)
    else if legacyEscalate rh.1 then .inr (acc2, rh.2)
    else
      let ha := heapAlloc rh.2 (setEntries (heapGet rh.2 addr) "previous_result" rh.1)
      loopAgentIterH rest prev ha.1 ha.2 acc2

/-- Heap-instrumented `LoopAgent.run` while loop: mirrors `loopAgentGo`. -/
def loopAgentGoH (agents : List LoopAgentH) : Nat → Nat → Heap → Nat → List LoopEntry →
    LoopOutcome × Heap
  | 0, iterCount, h, _, acc =>
    (⟨"completed", "loop_agent", iterCount, acc, "max_iterations_reached"⟩, h)
  | fuel + 1, iterCount, h, addr, acc =>
    match loopAgentIterH agents iterCount h addr acc with
    | .inr (acc2, h2) =>
      (⟨"completed", "loop_agent", iterCount + 1, acc2, "escalate_signal"⟩, h2)
    | .inl (acc2, h2, addr2) => loopAgentGoH agents fuel (iterCount + 1) h2 addr2 acc2

/-- Heap-instrumented `LoopAgent.run`. -/
def loopAgentRunH (agents : List LoopAgentH) (maxIterations : Nat) (h : Heap)
    (reqAddr : Nat) : LoopOutcome × Heap :=
  loopAgentGoH agents maxIterations 0 h reqAddr []

/-! ## Sequential short-circuit (claim C3) -/

/-- Running the sequential pipeline over `pre ++ bad :: post`, where every
agent of `pre` never reports an error status and `bad` always does, stops at
`bad`, appending one trace entry per agent of `pre` plus one for `bad`. -/
theorem seqGo_shortCircuit (bad : SeqAgent) (post : List SeqAgent)
    (hbad : ∀ q, isStrEq (pyGet (bad.run q) "status") "error" = true) :
    ∀ (pre : List SeqAgent),
      (∀ a ∈ pre, ∀ q, isStrEq (pyGet (a.run q) "status") "error" = false) →
      ∀ req acc, ∃ entries,
        sequentialAgentGo (pre ++ bad :: post) req acc =
          ⟨"error", "sequential_agent", some bad.name, acc ++ entries⟩ ∧
        entries.map (·.agent) = pre.map (·.name) ++ [bad.name]
  | [], _, req, acc => by
    refine ⟨[⟨bad.name, bad.run req⟩], ?_, by simp⟩
    simp [sequentialAgentGo, hbad req]
  | a :: pre, hpre, req, acc => by
    have ha : ∀ q, isStrEq (pyGet (a.run q) "status") "error" = false :=
      hpre a (List.mem_cons_self a pre)
    have hpre2 : ∀ b ∈ pre, ∀ q, isStrEq (pyGet (b.run q) "status") "error" = false :=
      fun b hb => hpre b (List.mem_cons_of_mem a hb)
    obtain ⟨entries, heq, hmap⟩ := seqGo_shortCircuit bad post hbad pre hpre2
      (pySet (pySet req "previous_result" (a.run req)) "state"
        (pyGetDef (a.run req) "state" (.dict [])))
      (acc ++ [⟨a.name, a.run req⟩])
    refine ⟨⟨a.name, a.run req⟩ :: entries, ?_, by simp [hmap]⟩
    simp only [List.cons_append, sequentialAgentGo, ha req, Bool.false_eq_true, if_false,
      List.append_eq]
    rw [heq]
    simp

/-- C3: for a sub-agent list whose `k`-th member is the first to return
`status = "error"`, `SequentialAgent.run` invokes sub-agents `1..k` exactly
once each in order and none after `k` (the results trace, which records one
entry per `agent.run` call, is exactly their names), and returns
`status = "error"`, `failed_at` the name of the `k`-th agent, and a results list
of length `k`. -/
theorem sequential_short_circuit (pre post : List SeqAgent) (bad : SeqAgent)
    (request : PyVal)
    (hpre : ∀ a ∈ pre, ∀ q, isStrEq (pyGet (a.run q) "status") "error" = false)
    (hbad : ∀ q, isStrEq (pyGet (bad.run q) "status") "error" = true) :
    (sequentialAgentRun (pre ++ bad :: post) request).status = "error" ∧
    (sequentialAgentRun (pre ++ bad :: post) request).failed_at = some bad.name ∧
    (sequentialAgentRun (pre ++ bad :: post) request).results.length = pre.length + 1 ∧
    (sequentialAgentRun (pre ++ bad :: post) request).results.map (·.agent) =
      pre.map (·.name) ++ [bad.name] := by
  obtain ⟨entries, heq, hmap⟩ := seqGo_shortCircuit bad post hbad pre hpre request []
  have hlen : entries.length = pre.length + 1 := by
    have := congrArg List.length hmap
    simpa using this
  unfold sequentialAgentRun
  rw [heq]
  simp [hmap, hlen]

def witSeqOk1 : SeqAgent := ⟨"seq_ok_one", fun _ => .dict [("status", .str "success")]⟩

def witSeqBad : SeqAgent :=
  ⟨"seq_bad", fun _ => .dict [("status", .str "error"), ("error", .str "boom")]⟩

def witSeqOk2 : SeqAgent := ⟨"seq_ok_two", fun _ => .dict [("status", .str "success")]⟩

/-- Witness for C3 at a concrete three-agent pipeline whose second agent
fails. -/
theorem sequential_short_circuit_witness :
    (sequentialAgentRun [witSeqOk1, witSeqBad, witSeqOk2] (.dict [])).status = "error" ∧
    (sequentialAgentRun [witSeqOk1, witSeqBad, witSeqOk2] (.dict [])).failed_at =
      some witSeqBad.name ∧
    (sequentialAgentRun [witSeqOk1, witSeqBad, witSeqOk2] (.dict [])).results.length =
      [witSeqOk1].length + 1 ∧
    (sequentialAgentRun [witSeqOk1, witSeqBad, witSeqOk2] (.dict [])).results.map (·.agent) =
      [witSeqOk1].map (·.name) ++ [witSeqBad.name] :=
  sequential_short_circuit [witSeqOk1] [witSeqOk2] witSeqBad (.dict [])
    (by
      intro a ha q
      rw [List.mem_singleton.mp ha]
      rfl)
    (fun q => rfl)

/-! ## Loop termination (claims C1 and C7) -/

/-- A result carries a termination signal for the loop: the ADK
`event_actions.escalate` form or the legacy `escalate`/`terminate` flags —
exactly the disjunction of the two early-return checks of the loop body. -/
def loopSignals (r : PyVal) : Bool :=
  eventActionsEscalate r || legacyEscalate r

/-- An iteration over sub-agents none of which signals at this call count
completes, appending one trace entry per sub-agent, in declaration order. -/
theorem loopIter_noSignal :
    ∀ (agents : List SubAgent) (prev : Nat),
      (∀ a ∈ agents, ∀ q, loopSignals (a.behavior prev q) = false) →
      ∀ req acc, ∃ entries req2,
        loopAgentIter agents prev req acc = .inl (acc ++ entries, req2) ∧
        entries.map (·.agent) = agents.map (·.name)
  | [], _, _, req, acc => ⟨[], req, by simp [loopAgentIter], by simp⟩
  | a :: agents, prev, hsig, req, acc => by
    have ha : loopSignals (a.behavior prev req) = false :=
      hsig a (List.mem_cons_self a agents) req
    rw [loopSignals, Bool.or_eq_false_iff] at ha
    obtain ⟨entries, req2, heq, hmap⟩ :=
      loopIter_noSignal agents prev
        (fun b hb => hsig b (List.mem_cons_of_mem a hb))
        (pySet req "previous_result" (a.behavior prev req))
        (acc ++ [⟨prev + 1, a.name, a.behavior prev req⟩])
    refine ⟨⟨prev + 1, a.name, a.behavior prev req⟩ :: entries, req2, ?_, by simp [hmap]⟩
    simp only [loopAgentIter, ha.1, ha.2, Bool.false_eq_true, if_false]
    rw [heq]
    simp

/-- An iteration over `pre ++ bad :: post` where no agent of `pre` signals
at this call count but `bad` does stops at `bad` with the early
escalate return, having appended one entry per agent of `pre` plus one for
`bad`. -/
theorem loopIter_escalates (bad : SubAgent) (post : List SubAgent) (prev : Nat)
    (hbad : ∀ q, loopSignals (bad.behavior prev q) = true) :
    ∀ (pre : List SubAgent),
      (∀ a ∈ pre, ∀ q, loopSignals (a.behavior prev q) = false) →
      ∀ req acc, ∃ entries,
        loopAgentIter (pre ++ bad :: post) prev req acc = .inr (acc ++ entries) ∧
        entries.map (·.agent) = pre.map (·.name) ++ [bad.name]
  | [], _, req, acc => by
    refine ⟨[⟨prev + 1, bad.name, bad.behavior prev req⟩], ?_, by simp⟩
    have hb := hbad req
    rw [loopSignals, Bool.or_eq_true] at hb
    rcases hev : eventActionsEscalate (bad.behavior prev req) with _ | _
    · have hleg : legacyEscalate (bad.behavior prev req) = true := by
        rcases hb with h | h
        · rw [hev] at h; exact absurd h (by simp)
        · exact h
      simp [loopAgentIter, hev, hleg]
    · simp [loopAgentIter, hev]
  | a :: pre, hpre, req, acc => by
    have ha : loopSignals (a.behavior prev req) = false :=
      hpre a (List.mem_cons_self a pre)  req
    rw [loopSignals, Bool.or_eq_false_iff] at ha
    obtain ⟨entries, heq, hmap⟩ :=
      loopIter_escalates bad post prev hbad pre
        (fun b hb => hpre b (List.mem_cons_of_mem a hb))
        (pySet req "previous_result" (a.behavior prev req))
        (acc ++ [⟨prev + 1, a.name, a.behavior prev req⟩])
    refine ⟨⟨prev + 1, a.name, a.behavior prev req⟩ :: entries, ?_, by simp [hmap]⟩
    simp only [List.cons_append, loopAgentIter, ha.1, ha.2, Bool.false_eq_true, if_false,
      List.append_eq]
    rw [heq]
    simp

/-- When no sub-agent ever signals, the while loop spends all its fuel,
reports `"max_iterations_reached"`, and appends the full per-iteration
trace, one entry per agent per remaining pass. -/
theorem loopGo_noSignal (agents : List SubAgent)
    (hsig : ∀ a ∈ agents, ∀ n q, loopSignals (a.behavior n q) = false) :
    ∀ (fuel iterCount : Nat) (req : PyVal) (acc : List LoopEntry),
      ∃ entries,
        loopAgentGo agents fuel iterCount req acc =
          ⟨"completed", "loop_agent", iterCount + fuel, acc ++ entries,
            "max_iterations_reached"⟩ ∧
        entries.map (·.agent) = (List.replicate fuel (agents.map (·.name))).flatten
  | 0, iterCount, req, acc => ⟨[], by simp [loopAgentGo], by simp⟩
  | fuel + 1, iterCount, req, acc => by
    obtain ⟨e1, req2, hiter, hmap1⟩ :=
      loopIter_noSignal agents iterCount (fun a ha q => hsig a ha iterCount q) req acc
    obtain ⟨e2, hgo, hmap2⟩ := loopGo_noSignal agents hsig fuel (iterCount + 1) req2 (acc ++ e1)
    refine ⟨e1 ++ e2, ?_, ?_⟩
    · rw [loopAgentGo, hiter]
      dsimp only
      rw [hgo]
      have harith : iterCount + 1 + fuel = iterCount + (fuel + 1) := by omega
      rw [harith, List.append_assoc]
    · simp [hmap1, hmap2, List.replicate_succ]

/-- C7: when no sub-agent ever returns an escalate or terminate signal and
`max_iterations ≥ 1`, `LoopAgent.run` runs exactly `max_iterations`
iterations, completes with `termination_reason = "max_iterations_reached"`
and `status = "completed"`, and (for pairwise-distinct agent names) each
sub-agent is called exactly `max_iterations` times — one results-trace
entry per call. -/
theorem loop_max_iterations (agents : List SubAgent) (maxIterations : Nat) (request : PyVal)
    (hmax : 1 ≤ maxIterations)
    (hsig : ∀ a ∈ agents, ∀ n q, loopSignals (a.behavior n q) = false)
    (hnodup : (agents.map (·.name)).Nodup) :
    (loopAgentRun agents maxIterations request).status = "completed" ∧
    (loopAgentRun agents maxIterations request).iterations = maxIterations ∧
    (loopAgentRun agents maxIterations request).termination_reason =
      "max_iterations_reached" ∧
    ∀ a ∈ agents, countAgent (loopAgentRun agents maxIterations request).results a.name =
      maxIterations := by
  obtain ⟨entries, hgo, hmap⟩ := loopGo_noSignal agents hsig maxIterations 0 request []
  unfold loopAgentRun
  rw [hgo]
  refine ⟨rfl, by simp, rfl, ?_⟩
  intro a ha
  have hmem : a.name ∈ agents.map (·.name) := List.mem_map_of_mem _ ha
  have hone : (agents.map (·.name)).count a.name = 1 :=
    List.count_eq_one_of_mem hnodup hmem
  have hcount : ∀ n : Nat,
      ((List.replicate n (agents.map (·.name))).flatten).count a.name = n := by
    intro n
    induction n with
    | zero => simp
    | succ m ih =>
      simp only [List.replicate_succ, List.flatten_cons, List.count_append, ih, hone]
      omega
  simp only [countAgent, List.nil_append, hmap]
  exact hcount maxIterations

def witLoopA : SubAgent := ⟨"loop_wa", fun _ _ => .dict [("status", .str "success")]⟩

def witLoopB : SubAgent := ⟨"loop_wb", fun _ _ => .dict [("status", .str "success")]⟩

/-- Witness for C7: two never-escalating agents, `max_iterations = 3`. -/
theorem loop_max_iterations_witness :
    (loopAgentRun [witLoopA, witLoopB] 3 (.dict [])).status = "completed" ∧
    (loopAgentRun [witLoopA, witLoopB] 3 (.dict [])).iterations = 3 ∧
    (loopAgentRun [witLoopA, witLoopB] 3 (.dict [])).termination_reason =
      "max_iterations_reached" ∧
    ∀ a ∈ [witLoopA, witLoopB],
      countAgent (loopAgentRun [witLoopA, witLoopB] 3 (.dict [])).results a.name = 3 :=
  loop_max_iterations [witLoopA, witLoopB] 3 (.dict []) (by omega)
    (by intro a ha n q; fin_cases ha <;> rfl)
    (by decide)

/-- Count of one element across the concatenation of `n` copies of a list. -/
theorem count_flatten_replicate (n : Nat) (l : List String) (x : String) :
    ((List.replicate n l).flatten).count x = n * l.count x := by
  induction n with
  | zero => simp
  | succ m ih =>
    simp only [List.replicate_succ, List.flatten_cons, List.count_append, ih]
    ring

/-- The while loop over `pre ++ bad :: post`, entered with `d + 1` calls of
`bad` still to go before its signalling one and enough fuel, completes
`d` further full iterations, then stops mid-iteration at `bad` with
`"escalate_signal"` and iteration count `k`. -/
theorem loopGo_escalates (pre post : List SubAgent) (bad : SubAgent) (k : Nat)
    (hpre : ∀ a ∈ pre, ∀ n q, loopSignals (a.behavior n q) = false)
    (hpost : ∀ a ∈ post, ∀ n q, loopSignals (a.behavior n q) = false)
    (hbadBefore : ∀ n, n + 1 < k → ∀ q, loopSignals (bad.behavior n q) = false)
    (hbadAt : ∀ q, loopSignals (bad.behavior (k - 1) q) = true) :
    ∀ (d iterCount fuel : Nat) (req : PyVal) (acc : List LoopEntry),
      iterCount + d + 1 = k → k ≤ iterCount + fuel →
      ∃ entries,
        loopAgentGo (pre ++ bad :: post) fuel iterCount req acc =
          ⟨"completed", "loop_agent", k, acc ++ entries, "escalate_signal"⟩ ∧
        entries.map (·.agent) =
          (List.replicate d ((pre ++ bad :: post).map (·.name))).flatten ++
            (pre.map (·.name) ++ [bad.name])
  | 0, iterCount, fuel, req, acc, hik, hfuel => by
    obtain ⟨f, rfl⟩ : ∃ f, fuel = f + 1 := by
      cases fuel with
      | zero => omega
      | succ f => exact ⟨f, rfl⟩
    have hAt : ∀ q, loopSignals (bad.behavior iterCount q) = true := by
      intro q
      have hki : k - 1 = iterCount := by omega
      rw [← hki]
      exact hbadAt q
    obtain ⟨entries, hiter, hmap⟩ :=
      loopIter_escalates bad post iterCount hAt pre
        (fun a ha q => hpre a ha iterCount q) req acc
    refine ⟨entries, ?_, by simp [hmap]⟩
    rw [loopAgentGo, hiter]
    dsimp only
    have hk1 : iterCount + 1 = k := by omega
    rw [hk1]
  | d + 1, iterCount, fuel, req, acc, hik, hfuel => by
    obtain ⟨f, rfl⟩ : ∃ f, fuel = f + 1 := by
      cases fuel with
      | zero => omega
      | succ f => exact ⟨f, rfl⟩
    have hall : ∀ a ∈ pre ++ bad :: post, ∀ q,
        loopSignals (a.behavior iterCount q) = false := by
      intro a ha q
      rcases List.mem_append.mp ha with h | h
      · exact hpre a h iterCount q
      · rcases List.mem_cons.mp h with rfl | h2
        · exact hbadBefore iterCount (by omega) q
        · exact hpost a h2 iterCount q
    obtain ⟨e1, req2, hiter, hmap1⟩ :=
      loopIter_noSignal (pre ++ bad :: post) iterCount hall req acc
    obtain ⟨e2, hgo, hmap2⟩ :=
      loopGo_escalates pre post bad k hpre hpost hbadBefore hbadAt d (iterCount + 1) f
        req2 (acc ++ e1) (by omega) (by omega)
    refine ⟨e1 ++ e2, ?_, ?_⟩
    · rw [loopAgentGo, hiter]
      dsimp only
      rw [hgo, List.append_assoc]
    · simp [hmap1, hmap2, List.replicate_succ]

/-- C1 (amended): if the sub-agent `bad` at position `j` of the list
`pre ++ bad :: post` first signals escalation on its `k`-th call
(`1 ≤ k < max_iterations`) and no other sub-agent ever signals, then
`LoopAgent.run` terminates after exactly `k` iterations with
`termination_reason = "escalate_signal"`; `bad` and the sub-agents before
it are called exactly `k` times, while the sub-agents after it are called
exactly `k - 1` times (the escalation return skips the remainder of the
`k`-th iteration).  Agent names are assumed pairwise distinct, as the data
model requires. -/
theorem loop_escalate_terminates (pre post : List SubAgent) (bad : SubAgent)
    (k maxIterations : Nat) (request : PyVal)
    (hk : 1 ≤ k) (hkm : k < maxIterations)
    (hpre : ∀ a ∈ pre, ∀ n q, loopSignals (a.behavior n q) = false)
    (hpost : ∀ a ∈ post, ∀ n q, loopSignals (a.behavior n q) = false)
    (hbadBefore : ∀ n, n + 1 < k → ∀ q, loopSignals (bad.behavior n q) = false)
    (hbadAt : ∀ q, loopSignals (bad.behavior (k - 1) q) = true)
    (hnodup : ((pre ++ bad :: post).map (·.name)).Nodup) :
    (loopAgentRun (pre ++ bad :: post) maxIterations request).status = "completed" ∧
    (loopAgentRun (pre ++ bad :: post) maxIterations request).iterations = k ∧
    (loopAgentRun (pre ++ bad :: post) maxIterations request).termination_reason =
      "escalate_signal" ∧
    (∀ a ∈ pre,
      countAgent (loopAgentRun (pre ++ bad :: post) maxIterations request).results a.name
        = k) ∧
    countAgent (loopAgentRun (pre ++ bad :: post) maxIterations request).results bad.name
      = k ∧
    (∀ a ∈ post,
      countAgent (loopAgentRun (pre ++ bad :: post) maxIterations request).results a.name
        = k - 1) := by
  obtain ⟨entries, hgo, hmap⟩ :=
    loopGo_escalates pre post bad k hpre hpost hbadBefore hbadAt (k - 1) 0 maxIterations
      request [] (by omega) (by omega)
  unfold loopAgentRun
  rw [hgo]
  simp only [List.map_append, List.map_cons] at hnodup hmap
  obtain ⟨hnpre, hnrest, hdisj⟩ := List.nodup_append.mp hnodup
  have hbadNotPost : bad.name ∉ post.map (·.name) := (List.nodup_cons.mp hnrest).1
  have hnpost : (post.map (·.name)).Nodup := (List.nodup_cons.mp hnrest).2
  have hcnt : ∀ x, countAgent entries x =
      (k - 1) * ((pre.map (·.name)).count x + (bad.name :: post.map (·.name)).count x) +
        ((pre.map (·.name)).count x + [bad.name].count x) := by
    intro x
    simp only [countAgent, hmap, List.count_append, count_flatten_replicate]
  refine ⟨rfl, rfl, rfl, ?_, ?_, ?_⟩
  · intro a ha
    have hmem : a.name ∈ pre.map (·.name) := List.mem_map_of_mem _ ha
    have hnotin : a.name ∉ bad.name :: post.map (·.name) := hdisj hmem
    have c1 : (pre.map (·.name)).count a.name = 1 :=
      List.count_eq_one_of_mem hnpre hmem
    have c2 : (bad.name :: post.map (·.name)).count a.name = 0 :=
      List.count_eq_zero.mpr hnotin
    have c3 : [bad.name].count a.name = 0 := by
      refine List.count_eq_zero.mpr ?_
      intro hx
      exact hnotin (by
        rw [List.mem_singleton.mp hx]
        exact List.mem_cons_self _ _)
    simp only [List.nil_append, hcnt, c1, c2, c3]
    omega
  · have c1 : (pre.map (·.name)).count bad.name = 0 := by
      refine List.count_eq_zero.mpr ?_
      intro hx
      exact hdisj hx (List.mem_cons_self _ _)
    have c2 : (bad.name :: post.map (·.name)).count bad.name = 1 := by
      rw [List.count_cons]
      rw [List.count_eq_zero.mpr hbadNotPost]
      simp
    have c3 : [bad.name].count bad.name = 1 := by simp
    simp only [List.nil_append, hcnt, c1, c2, c3]
    omega
  · intro a ha
    have hmem : a.name ∈ post.map (·.name) := List.mem_map_of_mem _ ha
    have hne : bad.name ≠ a.name := fun h => hbadNotPost (h ▸ hmem)
    have c1 : (pre.map (·.name)).count a.name = 0 := by
      refine List.count_eq_zero.mpr ?_
      intro hx
      exact hdisj hx (List.mem_cons_of_mem _ hmem)
    have c2 : (bad.name :: post.map (·.name)).count a.name = 1 := by
      rw [List.count_cons]
      rw [List.count_eq_one_of_mem hnpost hmem]
      simp [hne]
    have c3 : [bad.name].count a.name = 0 := by
      refine List.count_eq_zero.mpr ?_
      intro hx
      exact hne (List.mem_singleton.mp hx).symm
    simp only [List.nil_append, hcnt, c1, c2, c3]
    omega

def witLoopEsc : SubAgent :=
  ⟨"loop_we", fun n _ =>
    if n == 1 then .dict [("status", .str "success"), ("escalate", .bool true)]
    else .dict [("status", .str "success")]⟩

/-- Witness for C1 (amended): `witLoopEsc` escalates on its 2nd call in the
middle of a three-agent list, with `max_iterations = 5`. -/
theorem loop_escalate_terminates_witness :
    (loopAgentRun [witLoopA, witLoopEsc, witLoopB] 5 (.dict [])).status = "completed" ∧
    (loopAgentRun [witLoopA, witLoopEsc, witLoopB] 5 (.dict [])).iterations = 2 ∧
    (loopAgentRun [witLoopA, witLoopEsc, witLoopB] 5 (.dict [])).termination_reason =
      "escalate_signal" ∧
    (∀ a ∈ [witLoopA],
      countAgent (loopAgentRun [witLoopA, witLoopEsc, witLoopB] 5 (.dict [])).results a.name
        = 2) ∧
    countAgent (loopAgentRun [witLoopA, witLoopEsc, witLoopB] 5 (.dict [])).results
      witLoopEsc.name = 2 ∧
    (∀ a ∈ [witLoopB],
      countAgent (loopAgentRun [witLoopA, witLoopEsc, witLoopB] 5 (.dict [])).results a.name
        = 2 - 1) :=
  loop_escalate_terminates [witLoopA] [witLoopB] witLoopEsc 2 5 (.dict [])
    (by omega) (by omega)
    (by intro a ha n q; fin_cases ha <;> rfl)
    (by intro a ha n q; fin_cases ha <;> rfl)
    (by
      intro n hn q
      have hn0 : n = 0 := by omega
      subst hn0
      rfl)
    (fun q => rfl)
    (by decide)

def cexLoopEscalator : SubAgent :=
  ⟨"loop_esc", fun _ _ => .dict [("status", .str "success"), ("escalate", .bool true)]⟩

def cexLoopFollower : SubAgent :=
  ⟨"loop_follow", fun _ _ => .dict [("status", .str "success")]⟩

/-- C1 counterexample to the claim as stated: with two sub-agents where the
FIRST escalates already on its 1st call (`k = 1 < max_iterations = 5`), the
loop does terminate after exactly 1 iteration with `"escalate_signal"`, but
the second sub-agent is called 0 times, not `k = 1` times — the claim that
"every sub-agent in the list was called exactly k times" fails. -/
theorem loop_escalate_claim_cex :
    loopSignals (cexLoopEscalator.behavior 0 (.dict [])) = true ∧
    (loopAgentRun [cexLoopEscalator, cexLoopFollower] 5 (.dict [])).iterations = 1 ∧
    (loopAgentRun [cexLoopEscalator, cexLoopFollower] 5 (.dict [])).termination_reason =
      "escalate_signal" ∧
    countAgent (loopAgentRun [cexLoopEscalator, cexLoopFollower] 5 (.dict [])).results
      cexLoopFollower.name = 0 :=
  ⟨rfl, rfl, rfl, rfl⟩

/-! ## Parallel isolation (claim C8) -/

/-- The processed results of `ParallelAgent.run` are exactly one entry per
sub-agent, in declaration order. -/
theorem parallelRun_results (agents : List ParAgent) (req : PyVal) :
    (parallelAgentRun agents req).results =
      agents.map (fun a => parallelProcess a req) := by
  induction agents with
  | nil => rfl
  | cons a rest ih =>
    simp only [parallelAgentRun] at ih ⊢
    simp only [List.map_cons, List.zip_cons_cons]
    rw [ih, parallelProcess]

/-- C8: if the sub-agent `bad` raises while every other sub-agent returns
normally, `ParallelAgent.run` still returns one results entry per sub-agent
in declaration order, each paired with the name of its agent: the entry of `bad` is an
isolated error entry carrying the exception message, and every other entry
wraps the own result of that sub-agent. -/
theorem parallel_isolation (pre post : List ParAgent) (bad : ParAgent)
    (request : PyVal) (msg : String)
    (hbad : bad.run request = .error msg)
    (hothers : ∀ a ∈ pre ++ post, ∃ v, a.run request = .ok v) :
    (parallelAgentRun (pre ++ bad :: post) request).status = "success" ∧
    (parallelAgentRun (pre ++ bad :: post) request).results.length =
      pre.length + 1 + post.length ∧
    (parallelAgentRun (pre ++ bad :: post) request).results =
      pre.map (fun a => parallelProcess a request) ++
        (.dict [("agent", .str bad.name), ("status", .str "error"), ("error", .str msg)]) ::
        post.map (fun a => parallelProcess a request) ∧
    (∀ a ∈ pre ++ post, ∃ v, a.run request = .ok v ∧
      parallelProcess a request = .dict [("agent", .str a.name), ("result", v)]) := by
  have hbadEntry : parallelProcess bad request =
      .dict [("agent", .str bad.name), ("status", .str "error"), ("error", .str msg)] := by
    simp [parallelProcess, hbad]
  refine ⟨rfl, ?_, ?_, ?_⟩
  · rw [parallelRun_results]
    simp
    omega
  · rw [parallelRun_results]
    simp [hbadEntry]
  · intro a ha
    obtain ⟨v, hv⟩ := hothers a ha
    exact ⟨v, hv, by simp [parallelProcess, hv]⟩

def witParOk1 : ParAgent := ⟨"par_ok_one", fun _ => .ok (.dict [("status", .str "success")])⟩

def witParBoom : ParAgent := ⟨"par_boom", fun _ => .error "RuntimeError: boom"⟩

def witParOk2 : ParAgent := ⟨"par_ok_two", fun _ => .ok (.dict [("status", .str "success")])⟩

/-- Witness for C8 at a concrete three-agent list whose middle agent
raises. -/
theorem parallel_isolation_witness :
    (parallelAgentRun [witParOk1, witParBoom, witParOk2] (.dict [])).status = "success" ∧
    (parallelAgentRun [witParOk1, witParBoom, witParOk2] (.dict [])).results.length =
      [witParOk1].length + 1 + [witParOk2].length ∧
    (parallelAgentRun [witParOk1, witParBoom, witParOk2] (.dict [])).results =
      [witParOk1].map (fun a => parallelProcess a (.dict [])) ++
        (.dict [("agent", .str witParBoom.name), ("status", .str "error"),
          ("error", .str "RuntimeError: boom")]) ::
        [witParOk2].map (fun a => parallelProcess a (.dict [])) ∧
    (∀ a ∈ [witParOk1] ++ [witParOk2], ∃ v, a.run (.dict []) = .ok v ∧
      parallelProcess a (.dict []) = .dict [("agent", .str a.name), ("result", v)]) :=
  parallel_isolation [witParOk1] [witParOk2] witParBoom (.dict []) "RuntimeError: boom"
    rfl
    (by
      intro a ha
      fin_cases ha
      · exact ⟨.dict [("status", .str "success")], rfl⟩
      · exact ⟨.dict [("status", .str "success")], rfl⟩)

/-! ## Delegation log (claim C4) -/

/-- One delegate call appends exactly one record to the delegations log —
on both the success path and the exception path. -/
theorem delegateToAgent_delegations (c : DelegCall) (s : Session) :
    (delegateToAgent c s).2.delegations = s.delegations ++ [delegRecord c] := by
  rcases c with ⟨p, t, task, outc, id, ts⟩
  cases outc <;> rfl

/-- The log after a sequence of delegate calls is the original log followed
by one record per call, in call order. -/
theorem runDelegations_delegations (s : Session) (calls : List DelegCall) :
    (runDelegations s calls).delegations = s.delegations ++ calls.map delegRecord := by
  induction calls generalizing s with
  | nil => simp [runDelegations]
  | cons c cs ih =>
    rw [runDelegations, ih, delegateToAgent_delegations]
    simp

/-- C4: within one session, each delegate call appends exactly one
delegation record — `"completed"` on success, `"failed"` on a downstream
exception — and never mutates or removes an existing entry, so after any
call sequence the log is the old log extended by one record per call (in
particular its length grows by the number of calls); a downstream exception
surfaces as a `status: "error"` result (`delegateToAgent` is total: it never
re-raises). -/
theorem delegation_log_append_only (s : Session) (calls : List DelegCall) :
    (runDelegations s calls).delegations.length =
      s.delegations.length + calls.length ∧
    (∃ t, (runDelegations s calls).delegations = s.delegations ++ t) ∧
    (∀ c s0, (delegateToAgent c s0).2.delegations = s0.delegations ++ [delegRecord c]) ∧
    (∀ c : DelegCall, pyGet (delegRecord c) "status" =
      some (.str (match c.outcome with | .ok _ => "completed" | .error _ => "failed"))) ∧
    (∀ (c : DelegCall) (s0 : Session), pyGet (delegateToAgent c s0).1 "status" =
      some (.str (match c.outcome with | .ok _ => "success" | .error _ => "error"))) := by
  refine ⟨?_, ⟨calls.map delegRecord, runDelegations_delegations s calls⟩,
    delegateToAgent_delegations, ?_, ?_⟩
  · rw [runDelegations_delegations]
    simp
  · intro c
    rcases c with ⟨p, t, task, outc, id, ts⟩
    cases outc <;> rfl
  · intro c s0
    rcases c with ⟨p, t, task, outc, id, ts⟩
    cases outc <;> rfl

/-! ## Code Execution Agent validation gates (claims C6 and C10) -/

/-- C6: a request whose code is oversized returns `status: "error"` with
message `"code too large"`, one matching a denylisted pattern returns
`"forbidden code pattern detected"`, and one with no (truthy) code returns
the missing-code error — in all three cases without the sandbox ever being
initialised or invoked, for every sandbox collaborator. -/
theorem cea_gate_no_sandbox (maxCodeLen : Nat) (sandboxInit : Except (List String) Unit)
    (execute : PyVal → Except String PyVal) (request : PyVal) :
    (pyTruthy (pyGetD request "code") = true →
      (pyStr (pyGetD request "code")).length > maxCodeLen →
      codeExecutionAgentRun maxCodeLen sandboxInit execute request =
        ⟨ceaError "code too large", false, false⟩) ∧
    (pyTruthy (pyGetD request "code") = true →
      (pyStr (pyGetD request "code")).length ≤ maxCodeLen →
      denylistMatches (pyStr (pyGetD request "code")) = true →
      codeExecutionAgentRun maxCodeLen sandboxInit execute request =
        ⟨ceaError "forbidden code pattern detected", false, false⟩) ∧
    (pyTruthy (pyGetD request "code") = false →
      codeExecutionAgentRun maxCodeLen sandboxInit execute request =
        ⟨ceaError "missing \x27code\x27", false, false⟩) := by
  refine ⟨?_, ?_, ?_⟩
  · intro h1 h2
    simp [codeExecutionAgentRun, h1, h2]
  · intro h1 h2 h3
    have h2n : ¬ (pyStr (pyGetD request "code")).length > maxCodeLen := by omega
    simp [codeExecutionAgentRun, h1, h2n, h3]
  · intro h1
    simp [codeExecutionAgentRun, h1]

/-- Witness for C6: `code = "import os"` matches the first denylist
pattern, and the rejection carries the forbidden-pattern message with the
sandbox untouched. -/
theorem cea_gate_no_sandbox_witness :
    codeExecutionAgentRun 100000 (.error ["VertexAiCodeExecutor: unavailable"])
        (fun _ => .ok .none) (.dict [("code", .str "import os")]) =
      ⟨ceaError "forbidden code pattern detected", false, false⟩ :=
  (cea_gate_no_sandbox 100000 (.error ["VertexAiCodeExecutor: unavailable"])
      (fun _ => .ok .none) (.dict [("code", .str "import os")])).2.1
    rfl (by decide) (by decide)

/-- C10: a request whose `"code"` value is falsy — in particular the empty
string, exactly like an absent key (`request.get("code")` then yields
Python `None`, equally falsy) — is rejected by the `if not code` check with
the missing-code error, and the sandbox is neither initialised nor
invoked, making empty and absent code indistinguishable at the public
interface. -/
theorem cea_empty_code_missing (maxCodeLen : Nat) (sandboxInit : Except (List String) Unit)
    (execute : PyVal → Except String PyVal) (request : PyVal)
    (hfalsy : pyTruthy (pyGetD request "code") = false) :
    codeExecutionAgentRun maxCodeLen sandboxInit execute request =
      ⟨ceaError "missing \x27code\x27", false, false⟩ := by
  simp [codeExecutionAgentRun, hfalsy]

/-- Witness for C10: the same missing-code rejection for `code = ""` and
for a request without a `"code"` key. -/
theorem cea_empty_code_missing_witness :
    codeExecutionAgentRun 100000 (.error []) (fun _ => .ok .none)
        (.dict [("code", .str ""), ("session_id", .str "s1")]) =
      ⟨ceaError "missing \x27code\x27", false, false⟩ ∧
    codeExecutionAgentRun 100000 (.error []) (fun _ => .ok .none)
        (.dict [("session_id", .str "s1")]) =
      ⟨ceaError "missing \x27code\x27", false, false⟩ :=
  ⟨cea_empty_code_missing 100000 (.error []) (fun _ => .ok .none)
      (.dict [("code", .str ""), ("session_id", .str "s1")]) rfl,
   cea_empty_code_missing 100000 (.error []) (fun _ => .ok .none)
      (.dict [("session_id", .str "s1")]) rfl⟩

/-! ## DevelopingAgent delegation (claim C2) and orchestrator response
(claim C5) -/

/-- C2 (code bug in the source): for an `action == "execute_code"` request,
`DevelopingAgent.run` does not return the delegation result — the call
`AgentCommunication.delegate_to_agent(self, self.code_executor, request)`
(da.py line 325) passes three arguments to the four-parameter static method
(base.py line 216), so Python raises `TypeError` at the call site and the
exception escapes `run`, contradicting the contract that the delegation
Result is returned and no exception crosses the agent boundary. -/
theorem developing_run_execute_code_raises (saveWebAssets : PyVal → PyVal) :
    developingAgentRun saveWebAssets
        (.dict [("action", .str "execute_code"), ("code", .str "print(1+1)")]) =
      .error delegateArityError := rfl

/-- C5 counterexample to the claim as stated: for the request
`{"action": "execute_code"}`, `HumanInteractionAgent.run` does not return a
mapping at all — the three-argument `delegate_to_agent` call raises
`TypeError` (and even with the intended arguments the delegation result
would carry no `"response"` key) — so "for every request the result has a
non-empty string response" fails. -/
theorem hia_execute_code_no_response_cex :
    humanInteractionAgentRun true
        (.dict [("action", .str "execute_code"), ("code", .str "print(1)")]) =
      .error delegateArityError := rfl

/-- C5 (amended): for every request handled by the orchestrator through its own
response paths — i.e. not the `execute_code` delegation branch and not the
developing-agent delegation branch (`task_type` of `"code_generation"` or
`"development"` with a configured developing agent) —
`HumanInteractionAgent.run` returns a mapping whose `"response"` is a
non-empty string (the web-preview instructions or the templated scaffold
fallback), never erroring. -/
theorem hia_response_nonempty (devAgentPresent : Bool) (request : PyVal)
    (hact : isStrEq (pyGet request "action") "execute_code" = false)
    (htask : devAgentPresent = true →
      isStrEq (pyGet request "task_type") "code_generation" = false ∧
      isStrEq (pyGet request "task_type") "development" = false) :
    ∃ v s, humanInteractionAgentRun devAgentPresent request = .ok v ∧
      pyGet v "response" = some (.str s) ∧ s ≠ "" := by
  simp only [humanInteractionAgentRun, hact, Bool.false_eq_true, if_false]
  split
  · exact ⟨_, webPreviewInstructions, rfl, rfl, by decide⟩
  · cases hdev : devAgentPresent with
    | false =>
      simp only [Bool.false_and, Bool.false_eq_true, if_false]
      exact ⟨_, hiaFallbackResponse, rfl, rfl, by decide⟩
    | true =>
      obtain ⟨h1, h2⟩ := htask hdev
      simp only [h1, h2, Bool.or_self, Bool.and_false, Bool.false_eq_true, if_false]
      exact ⟨_, hiaFallbackResponse, rfl, rfl, by decide⟩

/-- Witness for C5 (amended) at a plain message request. -/
theorem hia_response_nonempty_witness :
    ∃ v s, humanInteractionAgentRun true (.dict [("message", .str "hello")]) = .ok v ∧
      pyGet v "response" = some (.str s) ∧ s ≠ "" :=
  hia_response_nonempty true (.dict [("message", .str "hello")]) rfl
    (fun _ => ⟨rfl, rfl⟩)

/-! ## Request immutability across workflow runs (claim C9) -/

theorem heapExtends_refl (h : Heap) : HeapExtends h h :=
  ⟨le_refl _, fun _ _ => rfl⟩

theorem heapExtends_trans {h1 h2 h3 : Heap} (a : HeapExtends h1 h2)
    (b : HeapExtends h2 h3) : HeapExtends h1 h3 :=
  ⟨le_trans a.1 b.1, fun i hi => (b.2 i (lt_of_lt_of_le hi a.1)).trans (a.2 i hi)⟩

/-- Allocating a fresh dict leaves every existing object unchanged. -/
theorem heapAlloc_extends (h : Heap) (d : List (String × PyVal)) :
    HeapExtends h (heapAlloc h d).1 := by
  refine ⟨by simp [heapAlloc], fun i hi => ?_⟩
  simp only [heapAlloc, heapGet]
  exact List.getD_append h [d] [] i hi

/-- The sequential pipeline only extends the heap when its sub-agents do:
the source allocates the augmented request and never stores to an existing
dict. -/
theorem seqGoH_extends :
    ∀ (agents : List SeqAgentH),
      (∀ a ∈ agents, ∀ h0 addr, HeapExtends h0 (a.runH h0 addr).2) →
      ∀ h addr acc, HeapExtends h (sequentialAgentGoH agents h addr acc).2
  | [], _, h, _, _ => heapExtends_refl h
  | a :: rest, hyp, h, addr, acc => by
    have ha := hyp a (List.mem_cons_self a rest) h addr
    simp only [sequentialAgentGoH]
    split
    · exact ha
    · exact heapExtends_trans (heapExtends_trans ha (heapAlloc_extends _ _))
        (seqGoH_extends rest (fun b hb => hyp b (List.mem_cons_of_mem a hb)) _ _ _)

/-- The heap reached by one loop iteration, in either exit mode. -/
def iterHeapOf : (List LoopEntry × Heap × Nat) ⊕ (List LoopEntry × Heap) → Heap
  | .inl (_, h, _) => h
  | .inr (_, h) => h

/-- One loop iteration only extends the heap when its sub-agents do. -/
theorem loopIterH_extends :
    ∀ (agents : List LoopAgentH) (prev : Nat),
      (∀ a ∈ agents, ∀ n h0 addr, HeapExtends h0 (a.runH n h0 addr).2) →
      ∀ h addr acc, HeapExtends h (iterHeapOf (loopAgentIterH agents prev h addr acc))
  | [], _, _, h, _, _ => heapExtends_refl h
  | a :: rest, prev, hyp, h, addr, acc => by
    have ha := hyp a (List.mem_cons_self a rest) prev h addr
    simp only [loopAgentIterH]
    split
    · exact ha
    · split
      · exact ha
      · exact heapExtends_trans (heapExtends_trans ha (heapAlloc_extends _ _))
          (loopIterH_extends rest prev (fun b hb => hyp b (List.mem_cons_of_mem a hb)) _ _ _)

/-- The whole loop only extends the heap when its sub-agents do. -/
theorem loopGoH_extends (agents : List LoopAgentH)
    (hyp : ∀ a ∈ agents, ∀ n h0 addr, HeapExtends h0 (a.runH n h0 addr).2) :
    ∀ (fuel iterCount : Nat) (h : Heap) (addr : Nat) (acc : List LoopEntry),
      HeapExtends h (loopAgentGoH agents fuel iterCount h addr acc).2
  | 0, _, h, _, _ => heapExtends_refl h
  | fuel + 1, iterCount, h, addr, acc => by
    have hi := loopIterH_extends agents iterCount hyp h addr acc
    simp only [loopAgentGoH]
    cases hit : loopAgentIterH agents iterCount h addr acc with
    | inl p =>
      rcases p with ⟨acc2, h2, addr2⟩
      rw [hit] at hi
      exact heapExtends_trans hi
        (loopGoH_extends agents hyp fuel (iterCount + 1) h2 addr2 acc2)
    | inr p =>
      rcases p with ⟨acc2, h2⟩
      rw [hit] at hi
      exact hi

/-- C9: when sub-agents do not mutate any existing request object (they
only read it and allocate), `SequentialAgent.run` and `LoopAgent.run` leave
the request dict of the caller unchanged: the `previous_result`/`state`
augmentation is an allocation of a new shallow-copy-and-extend dict, never
a store to the object of the caller. -/
theorem workflow_request_immutable (sagents : List SeqAgentH)
    (lagents : List LoopAgentH) (maxIterations : Nat) (h : Heap) (reqAddr : Nat)
    (hreq : reqAddr < h.length)
    (hseq : ∀ a ∈ sagents, ∀ h0 addr, HeapExtends h0 (a.runH h0 addr).2)
    (hloop : ∀ a ∈ lagents, ∀ n h0 addr, HeapExtends h0 (a.runH n h0 addr).2) :
    heapGet (sequentialAgentRunH sagents h reqAddr).2 reqAddr = heapGet h reqAddr ∧
    heapGet (loopAgentRunH lagents maxIterations h reqAddr).2 reqAddr =
      heapGet h reqAddr :=
  ⟨(seqGoH_extends sagents hseq h reqAddr []).2 reqAddr hreq,
   (loopGoH_extends lagents hloop maxIterations 0 h reqAddr []).2 reqAddr hreq⟩

def witSeqAgentH : SeqAgentH :=
  ⟨"seq_pure", fun h0 _ => (.dict [("status", .str "success")], h0)⟩

def witLoopAgentH : LoopAgentH :=
  ⟨"loop_pure", fun _ h0 _ => (.dict [("status", .str "success")], h0)⟩

/-- Witness for C9 with one non-mutating sub-agent in each workflow and a
one-object heap holding the request. -/
theorem workflow_request_immutable_witness :
    heapGet (sequentialAgentRunH [witSeqAgentH] [[("message", .str "hi")]] 0).2 0 =
      heapGet [[("message", .str "hi")]] 0 ∧
    heapGet (loopAgentRunH [witLoopAgentH] 2 [[("message", .str "hi")]] 0).2 0 =
      heapGet [[("message", .str "hi")]] 0 :=
  workflow_request_immutable [witSeqAgentH] [witLoopAgentH] 2
    [[("message", .str "hi")]] 0 (by decide)
    (by
      intro a ha h0 addr
      fin_cases ha
      exact heapExtends_refl h0)
    (by
      intro a ha n h0 addr
      fin_cases ha
      exact heapExtends_refl h0)
